import Mathlib

/-!
Shallow embedding of the Broadsword hooking/extensibility runtime:
the ProcessEvent hook table and dispatcher (`src/Engine/ProcessEventHook.cpp`),
the typed event bus (`src/Services/EventBus/EventBus.hpp`), the game-thread
action queue (`src/Foundation/Threading/GameThreadExecutor.cpp`) and the
mod loader (`src/Framework/Core/ModLoader.cpp`), together with theorems
settling the specification claims about them.
-/

set_option autoImplicit false

namespace Broadsword

/-- Outcome of invoking a C++ callback that returns `bool` but may throw. -/
inductive CbOutcome where
  | ret (b : Bool)
  | exn (msg : String)
deriving DecidableEq

/-- `SDK::UFunction`, reduced to the one observation the dispatcher makes:
`GetName()`. -/
structure UFunction where
  name : String
deriving DecidableEq

/-- `UFunction::GetName()`. -/
def UFunction.GetName (f : UFunction) : String := f.name

/-- Opaque `SDK::UObject*` argument. -/
abbrev UObjectPtr := Nat

/-- Opaque `void* params` argument. -/
abbrev ParamsPtr := Nat

/-- `ProcessEventHook::HookCallback`:
`std::function<bool(SDK::UObject*, SDK::UFunction*, void*)>`, where the
function pointer handed to the callback is the non-null one the detour
branched on; throwing is modelled by the `exn` outcome. -/
abbrev HookCallback := UObjectPtr → UFunction → ParamsPtr → CbOutcome

namespace ProcessEventHook

/-- `ProcessEventHook::Hook`. -/
structure Hook where
  id : Nat
  functionName : String
  callback : HookCallback

/-- `std::unordered_map<std::string, std::vector<Hook>> m_Hooks`, represented
as an association list with unique keys. -/
abbrev HookMap := List (String × List Hook)

/-- `m_Hooks.find(k)`. -/
def mapFind (m : HookMap) (k : String) : Option (List Hook) :=
  match m with
  | [] => none
  | (k2, v) :: rest => if k2 = k then some v else mapFind rest k

/-- `m_Hooks[k].push_back(h)`: creates the bucket if absent, appends
otherwise. -/
def mapAppendHook (m : HookMap) (k : String) (h : Hook) : HookMap :=
  match m with
  | [] => [(k, [h])]
  | (k2, v) :: rest =>
      if k2 = k then (k2, v ++ [h]) :: rest else (k2, v) :: mapAppendHook rest k h

/-- The mutable state of the `ProcessEventHook` singleton. -/
structure State where
  hooks : HookMap
  nextHookId : Nat
  originalProcessEvent : Bool
  initialized : Bool

/-- The freshly constructed singleton: empty table, `m_NextHookId = 1`,
no original pointer captured, not initialized. -/
def initialState : State :=
  { hooks := [], nextHookId := 1, originalProcessEvent := false, initialized := false }

/-- `ProcessEventHook::Initialize`: early-returns when already initialized,
otherwise just sets the flag (the VMT hook itself is a TODO in the source
and touches no other field). -/
def Initialize (st : State) : State :=
  if st.initialized then st else { st with initialized := true }

/-- `ProcessEventHook::ClearAllHooks`: `m_Hooks.clear()`. -/
def ClearAllHooks (st : State) : State :=
  { st with hooks := [] }

/-- `ProcessEventHook::Shutdown`: early-returns when not initialized;
otherwise nulls the captured original pointer, clears every hook and
resets the flag. -/
def Shutdown (st : State) : State :=
  if st.initialized then
    let st1 := if st.originalProcessEvent then { st with originalProcessEvent := false } else st
    let st2 := ClearAllHooks st1
    { st2 with initialized := false }
  else st

/-- `ProcessEventHook::AddHook`: takes the current `m_NextHookId`,
post-increments it, and appends the new hook to the bucket of the
function name. Returns the id. -/
def AddHook (st : State) (functionName : String) (callback : HookCallback) :
    Nat × State :=
  let hookId := st.nextHookId
  let hook : Hook := { id := hookId, functionName := functionName, callback := callback }
  (hookId,
    { st with
      nextHookId := st.nextHookId + 1
      hooks := mapAppendHook st.hooks functionName hook })

/-- The bucket scan of `ProcessEventHook::RemoveHook`: the first bucket
holding the id has all entries with that id removed (`std::remove_if` +
`erase`), then the scan returns; other buckets are untouched. -/
def removeHookFromBuckets : HookMap → Nat → HookMap
  | [], _ => []
  | (k, hs) :: rest, hookId =>
      if hs.any (fun h => h.id == hookId) then
        (k, hs.filter (fun h => h.id != hookId)) :: rest
      else
        (k, hs) :: removeHookFromBuckets rest hookId

/-- `ProcessEventHook::RemoveHook`: logs-and-returns when the id is found
in no bucket (a no-op on the table). -/
def RemoveHook (st : State) (hookId : Nat) : State :=
  { st with hooks := removeHookFromBuckets st.hooks hookId }

/-- `ProcessEventHook::RemoveHooksForFunction`: erases the whole bucket. -/
def RemoveHooksForFunction (st : State) (functionName : String) : State :=
  { st with hooks := st.hooks.filter (fun p => p.1 != functionName) }

/-- `ProcessEventHook::GetHookCount`. -/
def GetHookCount (st : State) (functionName : String) : Nat :=
  match mapFind st.hooks functionName with
  | some hs => hs.length
  | none => 0

/-- Whether one callback outcome lets the original proceed: a returned
`false` clears `shouldCallOriginal`; a returned `true` and a caught
exception both leave it alone. -/
def allowsOriginal : CbOutcome → Bool
  | .ret b => b
  | .exn _ => true

/-- What one intercepted call produces: the hook ids invoked (in order),
the `(function name, message)` pairs logged for caught exceptions, and
whether the original entry point was called. -/
structure DispatchResult where
  invoked : List Nat
  logged : List (String × String)
  originalCalled : Bool
deriving DecidableEq

/-- The hook loop of `ProcessEventDetour`: every hook's callback is invoked
in bucket order inside a try/catch; a caught exception is logged with the
function name; the `shouldCallOriginal` flag ends up as the conjunction of
`allowsOriginal` over all outcomes. -/
def runHooks (object : UObjectPtr) (function : UFunction) (params : ParamsPtr) :
    List Hook → List Nat × List (String × String) × Bool
  | [] => ([], [], true)
  | h :: rest =>
      let out := h.callback object function params
      let (inv, lg, should) := runHooks object function params rest
      match out with
      | .ret b => (h.id :: inv, lg, b && should)
      | .exn msg => (h.id :: inv, (function.GetName, msg) :: lg, should)

/-- `ProcessEventHook::ProcessEventDetour`: a null `function` pointer skips
hook lookup and calls the original (when captured); otherwise the bucket
for `function->GetName()` is looked up, its hooks run, and the original is
called iff the flag survived and the original pointer is non-null. -/
def ProcessEventDetour (st : State) (object : UObjectPtr)
    (function : Option UFunction) (params : ParamsPtr) : DispatchResult :=
  match function with
  | none => { invoked := [], logged := [], originalCalled := st.originalProcessEvent }
  | some f =>
      match mapFind st.hooks f.GetName with
      | none => { invoked := [], logged := [], originalCalled := st.originalProcessEvent }
      | some hs =>
          let r := runHooks object f params hs
          { invoked := r.1, logged := r.2.1, originalCalled := r.2.2 && st.originalProcessEvent }

/-- Operations a client can perform on the hook table, for stating
id-freshness across whole call sequences. -/
inductive HookOp where
  | add (functionName : String) (callback : HookCallback)
  | remove (hookId : Nat)
  | removeForFunction (functionName : String)
  | clearAll
  | initOp
  | shutdownOp

/-- One operation applied to the state; the returned id list is the id
`AddHook` handed back (empty for the other operations). -/
def applyHookOp (st : State) : HookOp → State × List Nat
  | .add k cb => ((AddHook st k cb).2, [(AddHook st k cb).1])
  | .remove i => (RemoveHook st i, [])
  | .removeForFunction k => (RemoveHooksForFunction st k, [])
  | .clearAll => (ClearAllHooks st, [])
  | .initOp => (Initialize st, [])
  | .shutdownOp => (Shutdown st, [])

/-- A sequence of operations, collecting every id `AddHook` returned, in
call order. -/
def runHookOps (st : State) : List HookOp → State × List Nat
  | [] => (st, [])
  | op :: rest =>
      let r1 := applyHookOp st op
      let r2 := runHookOps r1.1 rest
      (r2.1, r1.2 ++ r2.2)

end ProcessEventHook

namespace EventBus

/-- `std::type_index`: the runtime identity of an event type. -/
abbrev TypeKey := Nat

/-- The payload universe events live in; `Emit` passes a mutable reference,
modelled by callbacks of type `Ev → Ev`. -/
abbrev Ev := Nat

/-- `std::function<void(Event&)>`, the mutation written back into the
reference. -/
abbrev EventCallback := Ev → Ev

/-- The contents of one `SubscriberList<Event>::callbacks`
(`std::unordered_map<size_t, std::function<void(Event&)>>`), recorded in
insertion order; the map itself promises no iteration order, so `Emit`
takes the order it iterates in as an explicit parameter. -/
abbrev Bucket := List (Nat × EventCallback)

/-- `EventBus` state: `m_Subscribers` (type-erased, keyed by type identity)
and `m_NextId`. -/
structure State where
  subscribers : List (TypeKey × Bucket)
  nextId : Nat

/-- A bus with no subscriptions and `m_NextId = 1`. -/
def initialState : State := { subscribers := [], nextId := 1 }

/-- `m_Subscribers.find(typeIndex)`. -/
def busFind (m : List (TypeKey × Bucket)) (tk : TypeKey) : Option Bucket :=
  match m with
  | [] => none
  | (k, b) :: rest => if k = tk then some b else busFind rest tk

/-- Store `callbacks[id] = callback` into the bucket of `tk`, creating the
bucket on first use; the id is fresh, so the map insertion is an append. -/
def busInsert (m : List (TypeKey × Bucket)) (tk : TypeKey) (id : Nat)
    (cb : EventCallback) : List (TypeKey × Bucket) :=
  match m with
  | [] => [(tk, [(id, cb)])]
  | (k, b) :: rest =>
      if k = tk then (k, b ++ [(id, cb)]) :: rest
      else (k, b) :: busInsert rest tk id cb

/-- `EventBus::Subscribe<Event>`: takes `m_NextId`, post-increments, stores
the callback under the event type's identity, returns the id. -/
def Subscribe (st : State) (tk : TypeKey) (cb : EventCallback) : Nat × State :=
  let id := st.nextId
  (id, { st with nextId := st.nextId + 1, subscribers := busInsert st.subscribers tk id cb })

/-- `EventBus::Unsubscribe<Event>`: erases the id from the event type's
bucket when the bucket exists; otherwise a no-op. -/
def Unsubscribe (st : State) (tk : TypeKey) (id : Nat) : State :=
  { st with
    subscribers := st.subscribers.map (fun p =>
      if p.1 = tk then (p.1, p.2.filter (fun e => e.1 != id)) else p) }

/-- `EventBus::Clear`. -/
def Clear (st : State) : State := { st with subscribers := [] }

/-- `EventBus::GetSubscriberCount<Event>`. -/
def GetSubscriberCount (st : State) (tk : TypeKey) : Nat :=
  match busFind st.subscribers tk with
  | some b => b.length
  | none => 0

/-- An iteration order for the unordered container: the list `Emit`'s
range-for actually visits. The standard only guarantees it is a
permutation of the stored entries. -/
abbrev IterOrder := Bucket → Bucket

/-- The callback loop inside `Emit`: each subscriber receives the current
value of the (mutable) event and its write-back becomes the value the next
subscriber sees. Returns the `(id, event value received)` trace and the
final event value. -/
def emitRun (ev : Ev) : Bucket → List (Nat × Ev) × Ev
  | [] => ([], ev)
  | (id, cb) :: rest =>
      let r := emitRun (cb ev) rest
      ((id, ev) :: r.1, r.2)

/-- `EventBus::Emit<Event>`: looks up the bucket for the event type's
identity (no match: nothing happens) and invokes every stored callback, in
the container's iteration order `order`, threading the event through. -/
def Emit (order : IterOrder) (st : State) (tk : TypeKey) (ev : Ev) :
    List (Nat × Ev) × Ev :=
  match busFind st.subscribers tk with
  | none => ([], ev)
  | some b => emitRun ev (order b)

/-- Operations on the bus, for stating id freshness across sequences. -/
inductive BusOp where
  | subscribe (tk : TypeKey) (cb : EventCallback)
  | unsubscribe (tk : TypeKey) (id : Nat)
  | clearOp

/-- One operation applied to the state; the id list is what `Subscribe`
returned. -/
def applyBusOp (st : State) : BusOp → State × List Nat
  | .subscribe tk cb => ((Subscribe st tk cb).2, [(Subscribe st tk cb).1])
  | .unsubscribe tk id => (Unsubscribe st tk id, [])
  | .clearOp => (Clear st, [])

/-- A sequence of bus operations, collecting every id `Subscribe`
returned, in call order. -/
def runBusOps (st : State) : List BusOp → State × List Nat
  | [] => (st, [])
  | op :: rest =>
      let r1 := applyBusOp st op
      let r2 := runBusOps r1.1 rest
      (r2.1, r1.2 ++ r2.2)

end EventBus

namespace GameThreadExecutor

/-- What executing one queued `std::function<void()>` does, as far as the
queue can observe: the actions it enqueues (in call order) while running,
and whether it then throws. Actions are identified by opaque ids. -/
structure ActResult where
  enqueues : List Nat
  throws : Option String
deriving DecidableEq

/-- An environment assigning each action id its behaviour. -/
abbrev ActEnv := Nat → ActResult

/-- `GameThreadExecutor` state: `m_ActionQueue`, front at the head. -/
structure State where
  actionQueue : List Nat
deriving DecidableEq

/-- `GameThreadExecutor::QueueAction`: an empty `std::function` is ignored;
otherwise push at the back. -/
def QueueAction (st : State) (action : Option Nat) : State :=
  match action with
  | none => st
  | some a => { actionQueue := st.actionQueue ++ [a] }

/-- `GameThreadExecutor::Clear`: pops everything without executing. -/
def Clear (_st : State) : State := { actionQueue := [] }

/-- `GameThreadExecutor::PendingCount`. -/
def PendingCount (st : State) : Nat := st.actionQueue.length

/-- What one `ProcessQueue` call produces.  `ok`: the loop ran the listed
actions (in order) and exited with the queue empty.  `exn`: after the
completed actions, `failing` threw with `msg`; `ProcessQueue` has no
try/catch, so the exception propagates to the caller and `remaining` is
what is still queued.  `fuelOut`: the observation bound ran out (the C++
loop simply keeps going). -/
inductive DrainResult where
  | ok (trace : List Nat)
  | exn (msg : String) (completed : List Nat) (failing : Nat) (remaining : List Nat)
  | fuelOut (completed : List Nat) (remaining : List Nat)
deriving DecidableEq

/-- `GameThreadExecutor::ProcessQueue`: `while (!m_ActionQueue.empty())`
pop the front and execute it.  An action's enqueues land at the back of
the same live queue, so they are processed within the same call; a throw
escapes the loop at once (nothing in this function catches it), leaving
the rest of the queue for the next call.  `fuel` bounds the number of
iterations we observe. -/
def processQueue (env : ActEnv) : Nat → List Nat → DrainResult
  | _, [] => .ok []
  | 0, q => .fuelOut [] q
  | fuel + 1, a :: rest =>
      let r := env a
      match r.throws with
      | some msg => .exn msg [] a (rest ++ r.enqueues)
      | none =>
          match processQueue env fuel (rest ++ r.enqueues) with
          | .ok tr => .ok (a :: tr)
          | .exn msg tr b rem => .exn msg (a :: tr) b rem
          | .fuelOut tr rem => .fuelOut (a :: tr) rem

/-- `ProcessQueue` on the executor state. -/
def ProcessQueue (env : ActEnv) (fuel : Nat) (st : State) : DrainResult :=
  processQueue env fuel st.actionQueue

end GameThreadExecutor

namespace ModLoader

/-- A file path handed to `LoadMod`. -/
abbrev Path := String

/-- What the platform loader would find at a path: whether the two
required exports resolve, and what the factory returns (`none` = null).
Mod instances are opaque ids. -/
structure LibraryDesc where
  hasCreateMod : Bool
  hasDestroyMod : Bool
  createResult : Option Nat
deriving DecidableEq

/-- The environment of loadable libraries: `none` means `LoadLibraryW`
itself fails for that path. -/
abbrev LoadEnv := Path → Option LibraryDesc

/-- `ModLoader::LoadedMod` (the fields the claims observe). -/
structure LoadedMod where
  hModule : Nat
  modInstance : Option Nat
  dllPath : Path
deriving DecidableEq

/-- `ModLoader` state: `m_LoadedMods`, plus the ledger of library handles
currently open (so "the just-opened library is closed" is expressible) and
a fresh-handle counter standing for the distinct handles the platform
returns. -/
structure State where
  loadedMods : List LoadedMod
  openLibraries : List Nat
  nextHandle : Nat

/-- A loader with nothing loaded. -/
def initialState : State := { loadedMods := [], openLibraries := [], nextHandle := 0 }

/-- `FreeLibrary(hModule)`: closes that handle. -/
def FreeLibrary (st : State) (hModule : Nat) : State :=
  { st with openLibraries := st.openLibraries.filter (fun h => h != hModule) }

/-- `ModLoader::LoadMod`: open the library (failure: return false);
resolve `CreateMod` then `DestroyMod` (either missing: `FreeLibrary` and
return false); call the factory (null: `FreeLibrary` and return false);
otherwise push the `LoadedMod` record and return true. -/
def LoadMod (env : LoadEnv) (st : State) (dllPath : Path) : Bool × State :=
  match env dllPath with
  | none => (false, st)
  | some lib =>
      let hModule := st.nextHandle
      let opened : State :=
        { st with
          openLibraries := st.openLibraries ++ [hModule]
          nextHandle := st.nextHandle + 1 }
      if lib.hasCreateMod = false then (false, FreeLibrary opened hModule)
      else if lib.hasDestroyMod = false then (false, FreeLibrary opened hModule)
      else
        match lib.createResult with
        | none => (false, FreeLibrary opened hModule)
        | some inst =>
            (true,
              { opened with
                loadedMods := opened.loadedMods ++
                  [{ hModule := hModule, modInstance := some inst, dllPath := dllPath }] })

/-- `ModLoader::GetLoadedMods`: the `modInstance` of each loaded mod. -/
def GetLoadedMods (st : State) : List (Option Nat) :=
  st.loadedMods.map (fun m => m.modInstance)

/-- The outcome of one mod's `OnRegister(ctx)` (together with the
`GetInfo()` call made inside the same try block). -/
abbrev RegisterEnv := Nat → Except String Unit

/-- Whether an outcome is a normal return. -/
def regOk : Except String Unit → Bool
  | .ok _ => true
  | .error _ => false

/-- The loop body of `RegisterAllMods`: each loaded mod with a non-null
instance has its registration entry point invoked inside its own
try/catch; an error is logged and the loop continues.  Returns the
`(instance, succeeded)` trace in loop order and the logged messages. -/
def registerLoop (reg : RegisterEnv) : List LoadedMod → List (Nat × Bool) × List String
  | [] => ([], [])
  | m :: rest =>
      match m.modInstance with
      | none => registerLoop reg rest
      | some inst =>
          let r := registerLoop reg rest
          match reg inst with
          | .ok _ => ((inst, true) :: r.1, r.2)
          | .error e => ((inst, false) :: r.1, e :: r.2)

/-- `ModLoader::RegisterAllMods`. -/
def RegisterAllMods (reg : RegisterEnv) (st : State) : List (Nat × Bool) × List String :=
  registerLoop reg st.loadedMods

end ModLoader

/-! Concrete fixtures used to instantiate the theorems below. -/

namespace ProcessEventHook

/-- A callback that returns `true`. -/
def cbTrue : HookCallback := fun _ _ _ => CbOutcome.ret true

/-- A callback that returns `false`. -/
def cbFalse : HookCallback := fun _ _ _ => CbOutcome.ret false

/-- A callback that throws. -/
def cbThrow (msg : String) : HookCallback := fun _ _ _ => CbOutcome.exn msg

/-- A concrete intercepted function. -/
def fnFire : UFunction := { name := "Fire" }

/-- Live state with two hooks on `"Fire"`, both returning `true`. -/
def stTwoTrue : State :=
  { hooks := [("Fire",
      [{ id := 1, functionName := "Fire", callback := cbTrue },
       { id := 2, functionName := "Fire", callback := cbTrue }])]
    nextHookId := 3
    originalProcessEvent := true
    initialized := true }

/-- Live state with a throwing first hook and a `true` second hook on
`"Fire"`. -/
def stErrMix : State :=
  { hooks := [("Fire",
      [{ id := 1, functionName := "Fire", callback := cbThrow "bad" },
       { id := 2, functionName := "Fire", callback := cbTrue }])]
    nextHookId := 3
    originalProcessEvent := true
    initialized := true }

end ProcessEventHook

namespace EventBus

/-- Two subscriptions for type `0` made in order: id `1` adds one, id `2`
doubles. -/
def busTwo : State :=
  (Subscribe (Subscribe initialState 0 (fun e => e + 1)).2 0 (fun e => e * 2)).2

end EventBus

namespace GameThreadExecutor

/-- Every action does nothing. -/
def envPlain : ActEnv := fun _ => { enqueues := [], throws := none }

/-- Action `1` throws; all others do nothing. -/
def envThrow1 : ActEnv := fun a =>
  if a = 1 then { enqueues := [], throws := some "boom" }
  else { enqueues := [], throws := none }

/-- Action `1` enqueues action `3` while running; all others do nothing. -/
def envEnq : ActEnv := fun a =>
  if a = 1 then { enqueues := [3], throws := none }
  else { enqueues := [], throws := none }

end GameThreadExecutor

namespace ModLoader

/-- A library whose `DestroyMod` export is missing. -/
def libMissingDestroy : LibraryDesc :=
  { hasCreateMod := true, hasDestroyMod := false, createResult := some 7 }

/-- An environment where only `"bad.dll"` exists and it lacks an export. -/
def envOneBad : LoadEnv := fun p =>
  if p = "bad.dll" then some libMissingDestroy else none

/-- Three loaded mods with instances `1`, `2`, `3`. -/
def stThreeMods : State :=
  { loadedMods :=
      [{ hModule := 0, modInstance := some 1, dllPath := "a.dll" },
       { hModule := 1, modInstance := some 2, dllPath := "b.dll" },
       { hModule := 2, modInstance := some 3, dllPath := "c.dll" }]
    openLibraries := [0, 1, 2]
    nextHandle := 3 }

/-- Registration behaviour where the middle instance throws. -/
def regMiddleThrows : RegisterEnv := fun i =>
  if i = 2 then Except.error "register blew up" else Except.ok ()

end ModLoader

namespace ProcessEventHook

theorem runHooks_invoked (object : UObjectPtr) (f : UFunction) (params : ParamsPtr)
    (hs : List Hook) :
    (runHooks object f params hs).1 = hs.map (fun h => h.id) := by
  induction hs with
  | nil => rfl
  | cons h rest ih =>
      simp only [runHooks, List.map_cons]
      cases hout : h.callback object f params <;> simp [hout, ih]

theorem runHooks_should (object : UObjectPtr) (f : UFunction) (params : ParamsPtr)
    (hs : List Hook) :
    (runHooks object f params hs).2.2
      = hs.all (fun h => allowsOriginal (h.callback object f params)) := by
  induction hs with
  | nil => rfl
  | cons h rest ih =>
      simp only [runHooks, List.all_cons]
      cases hout : h.callback object f params <;>
        simp [hout, ih, allowsOriginal]

theorem runHooks_logged (object : UObjectPtr) (f : UFunction) (params : ParamsPtr)
    (hs : List Hook) :
    (runHooks object f params hs).2.1
      = hs.filterMap (fun h =>
          match h.callback object f params with
          | .exn msg => some (f.GetName, msg)
          | .ret _ => none) := by
  induction hs with
  | nil => rfl
  | cons h rest ih =>
      simp only [runHooks, List.filterMap_cons]
      cases hout : h.callback object f params <;> simp [hout, ih]

theorem allowsOriginal_eq_true_iff (o : CbOutcome) :
    allowsOriginal o = true ↔ o ≠ CbOutcome.ret false := by
  cases o with
  | ret b => cases b <;> simp [allowsOriginal]
  | exn msg => simp [allowsOriginal]

theorem mapFind_mapAppendHook_self (m : HookMap) (k : String) (h : Hook) :
    mapFind (mapAppendHook m k h) k = some ((mapFind m k).getD [] ++ [h]) := by
  induction m with
  | nil => simp [mapAppendHook, mapFind]
  | cons p rest ih =>
      obtain ⟨k2, v⟩ := p
      by_cases hk : k2 = k
      · subst hk
        simp [mapAppendHook, mapFind]
      · simp [mapAppendHook, mapFind, hk, ih]

/-- C1. Dispatch AND-semantics: with the original entry point captured, on
a call whose identity resolves to a hooked key and whose callbacks all
return booleans, the original executes iff every callback returned `true`
(over any number of hooks and any combination of results); with no bucket
for the key, or an unresolvable identity (null function pointer), the
original is invoked directly. -/
theorem C1_dispatch_and_semantics (st : State) (object : UObjectPtr)
    (params : ParamsPtr) (f : UFunction)
    (horig : st.originalProcessEvent = true) :
    (∀ hs, mapFind st.hooks f.GetName = some hs →
        (∀ h ∈ hs, ∃ b, h.callback object f params = CbOutcome.ret b) →
        ((ProcessEventDetour st object (some f) params).originalCalled = true ↔
          ∀ h ∈ hs, h.callback object f params = CbOutcome.ret true)) ∧
    (mapFind st.hooks f.GetName = none →
        (ProcessEventDetour st object (some f) params).originalCalled = true) ∧
    (ProcessEventDetour st object none params).originalCalled = true := by
  refine ⟨?_, ?_, ?_⟩
  · intro hs hfind hall
    have hdet : (ProcessEventDetour st object (some f) params).originalCalled
        = ((runHooks object f params hs).2.2 && st.originalProcessEvent) := by
      simp [ProcessEventDetour, hfind]
    rw [hdet, runHooks_should, horig, Bool.and_true, List.all_eq_true]
    constructor
    · intro H h hm
      obtain ⟨b, hb⟩ := hall h hm
      have hx := H h hm
      rw [hb] at hx ⊢
      cases b
      · simp [allowsOriginal] at hx
      · rfl
    · intro H h hm
      rw [H h hm]
      rfl
  · intro hfind
    simp [ProcessEventDetour, hfind, horig]
  · simp [ProcessEventDetour, horig]

/-- Witness for C1 at a concrete live state: two hooks on `"Fire"`, both
returning `true`; the original is called. -/
theorem C1_dispatch_and_semantics_witness :
    (ProcessEventDetour stTwoTrue 0 (some fnFire) 0).originalCalled = true := by
  refine ((C1_dispatch_and_semantics stTwoTrue 0 0 fnFire rfl).1
      [{ id := 1, functionName := "Fire", callback := cbTrue },
       { id := 2, functionName := "Fire", callback := cbTrue }] rfl ?_).mpr ?_
  · intro h hm
    simp only [List.mem_cons, List.not_mem_nil, or_false] at hm
    rcases hm with rfl | rfl <;> exact ⟨true, rfl⟩
  · intro h hm
    simp only [List.mem_cons, List.not_mem_nil, or_false] at hm
    rcases hm with rfl | rfl <;> rfl

/-- C2. For a key with `N` registered hooks, dispatch invokes all `N`
callbacks, exactly once each, in the order the hooks were added: `AddHook`
appends to the key's bucket, and the detour's invocation trace is exactly
the bucket's ids in bucket order, whatever the callbacks return. -/
theorem C2_dispatch_in_registration_order (st : State) (object : UObjectPtr)
    (params : ParamsPtr) (f : UFunction) :
    (∀ k cb, mapFind ((AddHook st k cb).2).hooks k
        = some ((mapFind st.hooks k).getD []
            ++ [{ id := st.nextHookId, functionName := k, callback := cb }])) ∧
    (∀ hs, mapFind st.hooks f.GetName = some hs →
        (ProcessEventDetour st object (some f) params).invoked
          = hs.map (fun h => h.id)) ∧
    (∀ hs, mapFind st.hooks f.GetName = some hs →
        (hs.map (fun h => h.id)).Nodup →
        ∀ h ∈ hs,
          ((ProcessEventDetour st object (some f) params).invoked).count h.id = 1) := by
  refine ⟨?_, ?_, ?_⟩
  · intro k cb
    simpa [AddHook] using mapFind_mapAppendHook_self st.hooks k
      { id := st.nextHookId, functionName := k, callback := cb }
  · intro hs hfind
    simp [ProcessEventDetour, hfind, runHooks_invoked]
  · intro hs hfind hnd h hm
    have h1 : (ProcessEventDetour st object (some f) params).invoked
        = hs.map (fun h => h.id) := by
      simp [ProcessEventDetour, hfind, runHooks_invoked]
    rw [h1]
    exact List.count_eq_one_of_mem hnd (List.mem_map_of_mem _ hm)

/-- Witness for C2: the two hooks on `"Fire"` are invoked as `[1, 2]`, and
each exactly once. -/
theorem C2_dispatch_in_registration_order_witness :
    (ProcessEventDetour stTwoTrue 0 (some fnFire) 0).invoked = [1, 2] ∧
    ((ProcessEventDetour stTwoTrue 0 (some fnFire) 0).invoked).count 1 = 1 := by
  have h2 := (C2_dispatch_in_registration_order stTwoTrue 0 0 fnFire).2.1
      [{ id := 1, functionName := "Fire", callback := cbTrue },
       { id := 2, functionName := "Fire", callback := cbTrue }] rfl
  constructor
  · simpa using h2
  · have h3 := (C2_dispatch_in_registration_order stTwoTrue 0 0 fnFire).2.2
        [{ id := 1, functionName := "Fire", callback := cbTrue },
         { id := 2, functionName := "Fire", callback := cbTrue }] rfl
        (by simp)
        { id := 1, functionName := "Fire", callback := cbTrue }
        (by simp)
    simpa using h3

/-- C3. A throwing callback is caught at the call boundary, logged with
the function identity, and treated as `true`: every hook is still invoked
(the trace is the full bucket), the log records exactly the throwing
hooks together with the function name, and the original runs iff no
callback actually returned `false`. -/
theorem C3_callback_error_isolation (st : State) (object : UObjectPtr)
    (params : ParamsPtr) (f : UFunction) (hs : List Hook)
    (horig : st.originalProcessEvent = true)
    (hfind : mapFind st.hooks f.GetName = some hs) :
    (ProcessEventDetour st object (some f) params).invoked = hs.map (fun h => h.id) ∧
    (ProcessEventDetour st object (some f) params).logged
      = hs.filterMap (fun h =>
          match h.callback object f params with
          | CbOutcome.exn msg => some (f.GetName, msg)
          | CbOutcome.ret _ => none) ∧
    ((ProcessEventDetour st object (some f) params).originalCalled = true ↔
      ∀ h ∈ hs, h.callback object f params ≠ CbOutcome.ret false) := by
  refine ⟨?_, ?_, ?_⟩
  · simp [ProcessEventDetour, hfind, runHooks_invoked]
  · simp [ProcessEventDetour, hfind, runHooks_logged]
  · have hdet : (ProcessEventDetour st object (some f) params).originalCalled
        = ((runHooks object f params hs).2.2 && st.originalProcessEvent) := by
      simp [ProcessEventDetour, hfind]
    rw [hdet, runHooks_should, horig, Bool.and_true, List.all_eq_true]
    exact ⟨fun H h hm => (allowsOriginal_eq_true_iff _).mp (H h hm),
           fun H h hm => (allowsOriginal_eq_true_iff _).mpr (H h hm)⟩

/-- Witness for C3 at a concrete live state: the first hook throws, the
second returns `true`; both are invoked, the throw is logged with the
function name, and the original still runs. -/
theorem C3_callback_error_isolation_witness :
    (ProcessEventDetour stErrMix 0 (some fnFire) 0).invoked = [1, 2] ∧
    (ProcessEventDetour stErrMix 0 (some fnFire) 0).logged = [("Fire", "bad")] ∧
    (ProcessEventDetour stErrMix 0 (some fnFire) 0).originalCalled = true := by
  obtain ⟨h1, h2, h3⟩ := C3_callback_error_isolation stErrMix 0 0 fnFire
      [{ id := 1, functionName := "Fire", callback := cbThrow "bad" },
       { id := 2, functionName := "Fire", callback := cbTrue }] rfl rfl
  refine ⟨by simpa using h1, ?_, h3.mpr ?_⟩
  · rw [h2]
    rfl
  · intro h hm
    simp only [List.mem_cons, List.not_mem_nil, or_false] at hm
    rcases hm with rfl | rfl <;> simp [cbThrow, cbTrue]

theorem Shutdown_eq_of_initialized (st : State) (h : st.initialized = true) :
    Shutdown st = { hooks := [], nextHookId := st.nextHookId,
                    originalProcessEvent := false, initialized := false } := by
  simp only [Shutdown, ClearAllHooks, h, if_true]
  cases horig : st.originalProcessEvent <;> simp [horig]

/-- C10. `Shutdown` is conditional on the initialization state: while not
initialized it returns the state unchanged (so hooks added before any
`Initialize` survive — and `AddHook` itself never flips the flag); while
initialized it clears every hook (every key's count drops to 0) and
resets the flag. -/
theorem C10_shutdown_conditional (st : State) :
    (st.initialized = false → Shutdown st = st) ∧
    (st.initialized = true →
      (∀ k, GetHookCount (Shutdown st) k = 0) ∧
      (Shutdown st).initialized = false) ∧
    (∀ k cb, ((AddHook st k cb).2).initialized = st.initialized) := by
  refine ⟨?_, ?_, ?_⟩
  · intro h
    simp [Shutdown, h]
  · intro h
    rw [Shutdown_eq_of_initialized st h]
    exact ⟨fun k => rfl, rfl⟩
  · intro k cb
    rfl

/-- Witness for C10: a hook added to the fresh (never-initialized) state
survives `Shutdown` unchanged, while after `Initialize` a `Shutdown`
empties the `"Fire"` bucket. -/
theorem C10_shutdown_conditional_witness :
    Shutdown ((AddHook initialState "Fire" cbTrue).2)
        = (AddHook initialState "Fire" cbTrue).2 ∧
    GetHookCount (Shutdown (Initialize ((AddHook initialState "Fire" cbTrue).2))) "Fire" = 0 := by
  constructor
  · exact (C10_shutdown_conditional _).1 rfl
  · exact ((C10_shutdown_conditional _).2.1 rfl).1 "Fire"

theorem Initialize_nextHookId (st : State) : (Initialize st).nextHookId = st.nextHookId := by
  simp only [Initialize]
  split <;> rfl

theorem Shutdown_nextHookId (st : State) : (Shutdown st).nextHookId = st.nextHookId := by
  cases hx : st.initialized
  · simp [Shutdown, hx]
  · rw [Shutdown_eq_of_initialized st hx]

theorem applyHookOp_bounds (st : State) (op : HookOp) :
    st.nextHookId ≤ (applyHookOp st op).1.nextHookId ∧
    ∀ i ∈ (applyHookOp st op).2,
      st.nextHookId ≤ i ∧ i < (applyHookOp st op).1.nextHookId := by
  cases op with
  | add k cb =>
      refine ⟨Nat.le_succ _, ?_⟩
      intro i hi
      simp only [applyHookOp, List.mem_singleton] at hi
      subst hi
      exact ⟨Nat.le_refl _, Nat.lt_succ_self _⟩
  | remove hookId =>
      exact ⟨Nat.le_refl _, by intro i hi; simp [applyHookOp] at hi⟩
  | removeForFunction k =>
      exact ⟨Nat.le_refl _, by intro i hi; simp [applyHookOp] at hi⟩
  | clearAll =>
      exact ⟨Nat.le_refl _, by intro i hi; simp [applyHookOp] at hi⟩
  | initOp =>
      exact ⟨Nat.le_of_eq (Initialize_nextHookId st).symm,
        by intro i hi; simp [applyHookOp] at hi⟩
  | shutdownOp =>
      exact ⟨Nat.le_of_eq (Shutdown_nextHookId st).symm,
        by intro i hi; simp [applyHookOp] at hi⟩

theorem runHookOps_bounds (ops : List HookOp) (st : State) :
    st.nextHookId ≤ (runHookOps st ops).1.nextHookId ∧
    ∀ i ∈ (runHookOps st ops).2,
      st.nextHookId ≤ i ∧ i < (runHookOps st ops).1.nextHookId := by
  induction ops generalizing st with
  | nil => simp [runHookOps]
  | cons op rest ih =>
      obtain ⟨h1, h2⟩ := applyHookOp_bounds st op
      obtain ⟨h3, h4⟩ := ih (applyHookOp st op).1
      refine ⟨le_trans h1 h3, ?_⟩
      intro i hi
      simp only [runHookOps, List.mem_append] at hi
      rcases hi with hi | hi
      · obtain ⟨ha, hb⟩ := h2 i hi
        exact ⟨ha, lt_of_lt_of_le hb h3⟩
      · obtain ⟨ha, hb⟩ := h4 i hi
        exact ⟨le_trans h1 ha, hb⟩

theorem runHookOps_ids_pairwise (ops : List HookOp) (st : State) :
    ((runHookOps st ops).2).Pairwise (· < ·) := by
  induction ops generalizing st with
  | nil => simp [runHookOps]
  | cons op rest ih =>
      simp only [runHookOps]
      refine List.pairwise_append.mpr ⟨?_, ih _, ?_⟩
      · cases op <;> simp [applyHookOp]
      · intro a ha b hb
        have h2 := (applyHookOp_bounds st op).2 a ha
        have h4 := (runHookOps_bounds rest (applyHookOp st op).1).2 b hb
        exact lt_of_lt_of_le h2.2 h4.1

end ProcessEventHook

namespace EventBus

theorem applyBusOp_bounds (st : State) (op : BusOp) :
    st.nextId ≤ (applyBusOp st op).1.nextId ∧
    ∀ i ∈ (applyBusOp st op).2,
      st.nextId ≤ i ∧ i < (applyBusOp st op).1.nextId := by
  cases op with
  | subscribe tk cb =>
      refine ⟨Nat.le_succ _, ?_⟩
      intro i hi
      simp only [applyBusOp, List.mem_singleton] at hi
      subst hi
      exact ⟨Nat.le_refl _, Nat.lt_succ_self _⟩
  | unsubscribe tk id =>
      exact ⟨Nat.le_refl _, by intro i hi; simp [applyBusOp] at hi⟩
  | clearOp =>
      exact ⟨Nat.le_refl _, by intro i hi; simp [applyBusOp] at hi⟩

theorem runBusOps_bounds (ops : List BusOp) (st : State) :
    st.nextId ≤ (runBusOps st ops).1.nextId ∧
    ∀ i ∈ (runBusOps st ops).2,
      st.nextId ≤ i ∧ i < (runBusOps st ops).1.nextId := by
  induction ops generalizing st with
  | nil => simp [runBusOps]
  | cons op rest ih =>
      obtain ⟨h1, h2⟩ := applyBusOp_bounds st op
      obtain ⟨h3, h4⟩ := ih (applyBusOp st op).1
      refine ⟨le_trans h1 h3, ?_⟩
      intro i hi
      simp only [runBusOps, List.mem_append] at hi
      rcases hi with hi | hi
      · obtain ⟨ha, hb⟩ := h2 i hi
        exact ⟨ha, lt_of_lt_of_le hb h3⟩
      · obtain ⟨ha, hb⟩ := h4 i hi
        exact ⟨le_trans h1 ha, hb⟩

theorem runBusOps_ids_pairwise (ops : List BusOp) (st : State) :
    ((runBusOps st ops).2).Pairwise (· < ·) := by
  induction ops generalizing st with
  | nil => simp [runBusOps]
  | cons op rest ih =>
      simp only [runBusOps]
      refine List.pairwise_append.mpr ⟨?_, ih _, ?_⟩
      · cases op <;> simp [applyBusOp]
      · intro a ha b hb
        have h2 := (applyBusOp_bounds st op).2 a ha
        have h4 := (runBusOps_bounds rest (applyBusOp st op).1).2 b hb
        exact lt_of_lt_of_le h2.2 h4.1

theorem emitRun_fst (ev : Ev) (l : Bucket) :
    (emitRun ev l).1.map Prod.fst = l.map Prod.fst := by
  induction l generalizing ev with
  | nil => rfl
  | cons p rest ih =>
      obtain ⟨id, cb⟩ := p
      simp [emitRun, ih]

theorem emitRun_snd (ev : Ev) (l : Bucket) :
    (emitRun ev l).2 = l.foldl (fun e c => c.2 e) ev := by
  induction l generalizing ev with
  | nil => rfl
  | cons p rest ih =>
      obtain ⟨id, cb⟩ := p
      simp [emitRun, ih]

theorem emitRun_inputs (l : Bucket) (ev : Ev) (j : Nat) (p : Nat × Ev)
    (hj : (emitRun ev l).1[j]? = some p) :
    p.2 = (l.take j).foldl (fun e c => c.2 e) ev := by
  induction l generalizing ev j with
  | nil => simp [emitRun] at hj
  | cons q rest ih =>
      obtain ⟨id, cb⟩ := q
      cases j with
      | zero =>
          simp [emitRun] at hj
          simp [← hj]
      | succ j =>
          have hj2 : (emitRun (cb ev) rest).1[j]? = some p := by
            simpa [emitRun] using hj
          simpa [List.take_succ_cons] using ih (cb ev) j hj2

/-- C4, counterexample to "in registration order".  `busTwo` subscribes
id `1` then id `2` for the same event type; `Emit` iterates the bucket's
`std::unordered_map<size_t, callback>` in whatever order the container
yields, which is unspecified.  Reversal is one admissible iteration order
(it is a permutation of the stored entries — second conjunct), and under
it the subscribers run as `[2, 1]`, not in registration order `[1, 2]`. -/
theorem C4_registration_order_counterexample :
    (Emit (fun l => l.reverse) busTwo 0 5).1.map Prod.fst = [2, 1] ∧
    List.Perm (((busFind busTwo.subscribers 0).getD []).reverse)
      ((busFind busTwo.subscribers 0).getD []) ∧
    ([2, 1] : List Nat) ≠ [1, 2] := by
  exact ⟨rfl, List.reverse_perm _, by decide⟩

/-- C4 as amended: `Emit` on type `T` invokes exactly the subscribers
registered for `T` — each exactly once, never a subscriber of a distinct
type — and pipelines the single mutable event through them (each
invocation receives the fold of all earlier invoked callbacks over the
original event, and the final value is the fold over the whole order);
but the invocation order is the unordered container's iteration order
(an arbitrary permutation of the stored subscribers), not necessarily
registration order. -/
theorem C4_emit_exactly_once_pipeline (st : State) (tk : TypeKey) (ev : Ev)
    (order : IterOrder) (b : Bucket)
    (hfind : busFind st.subscribers tk = some b)
    (hperm : List.Perm (order b) b) :
    ((Emit order st tk ev).1.map Prod.fst).Perm (b.map Prod.fst) ∧
    ((b.map Prod.fst).Nodup →
      ∀ id ∈ b.map Prod.fst,
        ((Emit order st tk ev).1.map Prod.fst).count id = 1) ∧
    (∀ p ∈ (Emit order st tk ev).1, p.1 ∈ b.map Prod.fst) ∧
    ((Emit order st tk ev).2 = (order b).foldl (fun e c => c.2 e) ev) ∧
    (∀ j p, (Emit order st tk ev).1[j]? = some p →
        p.2 = ((order b).take j).foldl (fun e c => c.2 e) ev) := by
  have hemit : Emit order st tk ev = emitRun ev (order b) := by
    simp [Emit, hfind]
  have hids : (Emit order st tk ev).1.map Prod.fst = (order b).map Prod.fst := by
    rw [hemit, emitRun_fst]
  have hperm2 : ((Emit order st tk ev).1.map Prod.fst).Perm (b.map Prod.fst) := by
    rw [hids]
    exact hperm.map Prod.fst
  refine ⟨hperm2, ?_, ?_, ?_, ?_⟩
  · intro hnd id hid
    rw [hperm2.count_eq id]
    exact List.count_eq_one_of_mem hnd hid
  · intro p hp
    have hmem : p.1 ∈ (Emit order st tk ev).1.map Prod.fst :=
      List.mem_map_of_mem _ hp
    exact (hperm2.mem_iff).mp hmem
  · rw [hemit, emitRun_snd]
  · intro j p hp
    rw [hemit] at hp
    exact emitRun_inputs (order b) ev j p hp

/-- Witness for C4 (amended) under the identity iteration order on
`busTwo`: each of the two subscribers runs exactly once and the event is
pipelined, `(5 + 1) * 2 = 12`. -/
theorem C4_emit_exactly_once_pipeline_witness :
    ((Emit (fun l => l) busTwo 0 5).1.map Prod.fst).Perm [1, 2] ∧
    (Emit (fun l => l) busTwo 0 5).2 = 12 := by
  obtain ⟨h1, h2, h3, h4, h5⟩ := C4_emit_exactly_once_pipeline busTwo 0 5
      (fun l => l) [(1, fun e => e + 1), (2, fun e => e * 2)] rfl (List.Perm.refl _)
  constructor
  · simpa using h1
  · rw [h4]
    rfl

end EventBus

/-- C9. Across any sequence of operations on the hook table (adds mixed
with removes, clears, shutdowns) the ids `AddHook` returns are strictly
increasing in call order, hence pairwise distinct — never reused, even
after removals; the same holds for the ids `Subscribe` returns across any
sequence of event-bus operations. -/
theorem C9_ids_monotonic_never_reused
    (hst : ProcessEventHook.State) (hops : List ProcessEventHook.HookOp)
    (bst : EventBus.State) (bops : List EventBus.BusOp) :
    ((ProcessEventHook.runHookOps hst hops).2).Pairwise (· < ·) ∧
    ((ProcessEventHook.runHookOps hst hops).2).Nodup ∧
    ((EventBus.runBusOps bst bops).2).Pairwise (· < ·) ∧
    ((EventBus.runBusOps bst bops).2).Nodup := by
  refine ⟨ProcessEventHook.runHookOps_ids_pairwise hops hst, ?_,
    EventBus.runBusOps_ids_pairwise bops bst, ?_⟩
  · exact (ProcessEventHook.runHookOps_ids_pairwise hops hst).imp
      (fun h => Nat.ne_of_lt h)
  · exact (EventBus.runBusOps_ids_pairwise bops bst).imp
      (fun h => Nat.ne_of_lt h)

namespace GameThreadExecutor

theorem processQueue_ok_front (env : ActEnv) (fuel : Nat) (q tr : List Nat)
    (h : processQueue env fuel q = DrainResult.ok tr) : ∃ t, tr = q ++ t := by
  induction fuel generalizing q tr with
  | zero =>
      cases q with
      | nil => exact ⟨tr, by simp⟩
      | cons a rest => simp [processQueue] at h
  | succ fuel ih =>
      cases q with
      | nil => exact ⟨tr, by simp⟩
      | cons a rest =>
          simp only [processQueue] at h
          cases hthrow : (env a).throws with
          | some msg =>
              rw [hthrow] at h
              simp at h
          | none =>
              rw [hthrow] at h
              cases hrec : processQueue env fuel (rest ++ (env a).enqueues) with
              | ok tr2 =>
                  rw [hrec] at h
                  simp only [DrainResult.ok.injEq] at h
                  obtain ⟨t, ht⟩ := ih _ _ hrec
                  refine ⟨(env a).enqueues ++ t, ?_⟩
                  rw [← h, ht]
                  simp
              | exn msg c b rem =>
                  rw [hrec] at h
                  simp at h
              | fuelOut c rem =>
                  rw [hrec] at h
                  simp at h

theorem processQueue_ok_closed (env : ActEnv) (fuel : Nat) (q tr : List Nat)
    (h : processQueue env fuel q = DrainResult.ok tr) :
    ∀ a ∈ tr, ∀ b ∈ (env a).enqueues, b ∈ tr := by
  induction fuel generalizing q tr with
  | zero =>
      cases q with
      | nil =>
          simp [processQueue] at h
          intro a ha
          subst h
          simp at ha
      | cons a rest => simp [processQueue] at h
  | succ fuel ih =>
      cases q with
      | nil =>
          simp [processQueue] at h
          intro a ha
          subst h
          simp at ha
      | cons a rest =>
          simp only [processQueue] at h
          cases hthrow : (env a).throws with
          | some msg =>
              rw [hthrow] at h
              simp at h
          | none =>
              rw [hthrow] at h
              cases hrec : processQueue env fuel (rest ++ (env a).enqueues) with
              | ok tr2 =>
                  rw [hrec] at h
                  simp only [DrainResult.ok.injEq] at h
                  subst h
                  obtain ⟨t, ht⟩ := processQueue_ok_front env fuel _ _ hrec
                  intro x hx b hb
                  rcases List.mem_cons.mp hx with rfl | hx2
                  · have hb1 : b ∈ rest ++ (env x).enqueues :=
                      List.mem_append.mpr (Or.inr hb)
                    have hb2 : b ∈ tr2 := by
                      rw [ht]
                      exact List.mem_append.mpr (Or.inl hb1)
                    exact List.mem_cons.mpr (Or.inr hb2)
                  · exact List.mem_cons.mpr (Or.inr (ih _ _ hrec x hx2 b hb))
              | exn msg c b rem =>
                  rw [hrec] at h
                  simp at h
              | fuelOut c rem =>
                  rw [hrec] at h
                  simp at h

theorem processQueue_no_enqueue (env : ActEnv) (q : List Nat)
    (hq : ∀ a ∈ q, env a = { enqueues := [], throws := none }) (fuel : Nat)
    (hfuel : q.length ≤ fuel) :
    processQueue env fuel q = DrainResult.ok q := by
  induction q generalizing fuel with
  | nil => cases fuel <;> rfl
  | cons a rest ih =>
      cases fuel with
      | zero => simp at hfuel
      | succ fuel =>
          have ha := hq a (List.mem_cons_self a rest)
          have hrest : ∀ x ∈ rest, env x = { enqueues := [], throws := none } :=
            fun x hx => hq x (List.mem_cons_of_mem a hx)
          have hlen : rest.length ≤ fuel := by simpa using hfuel
          have hrec := ih hrest fuel hlen
          simp [processQueue, ha, hrec]

/-- C5. Drain semantics of `ProcessQueue`: every action pending at call
time runs, in FIFO order, as a prefix of the execution trace; an action
enqueued while another action runs in the same call is also executed
within that same call (a completed drain's trace is closed under the
enqueues of its members); when no executed action enqueues, the trace is
exactly the pending queue; and `Clear` before a drain discards everything,
so the drain executes nothing. -/
theorem C5_drain_fifo (env : ActEnv) (fuel : Nat) (q tr : List Nat) (st : State) :
    (processQueue env fuel q = DrainResult.ok tr → ∃ t, tr = q ++ t) ∧
    (processQueue env fuel q = DrainResult.ok tr →
      ∀ a ∈ tr, ∀ b ∈ (env a).enqueues, b ∈ tr) ∧
    ((∀ a ∈ q, env a = { enqueues := [], throws := none }) → q.length ≤ fuel →
      processQueue env fuel q = DrainResult.ok q) ∧
    ProcessQueue env fuel (Clear st) = DrainResult.ok [] := by
  refine ⟨processQueue_ok_front env fuel q tr,
    processQueue_ok_closed env fuel q tr,
    fun hq hf => processQueue_no_enqueue env q hq fuel hf, ?_⟩
  cases fuel <;> rfl

/-- Witness for C5: queue `[1, 2]` where action `1` enqueues action `3`
mid-drain; the single drain executes `[1, 2, 3]` — the pending actions as
a FIFO prefix, the mid-drain enqueue in the same pass — and a cleared
queue drains to nothing. -/
theorem C5_drain_fifo_witness :
    processQueue envEnq 10 [1, 2] = DrainResult.ok [1, 2, 3] ∧
    (∃ t, [1, 2, 3] = [1, 2] ++ t) ∧
    (3 : Nat) ∈ [1, 2, 3] ∧
    ProcessQueue envPlain 10 (Clear { actionQueue := [4, 5] }) = DrainResult.ok [] := by
  have hok : processQueue envEnq 10 [1, 2] = DrainResult.ok [1, 2, 3] := by rfl
  refine ⟨hok,
    (C5_drain_fifo envEnq 10 [1, 2] [1, 2, 3] { actionQueue := [] }).1 hok,
    (C5_drain_fifo envEnq 10 [1, 2] [1, 2, 3] { actionQueue := [] }).2.1 hok
      1 (by simp) 3 (by decide),
    (C5_drain_fifo envPlain 10 [] [] { actionQueue := [4, 5] }).2.2.2⟩

/-- C6, counterexample: `ProcessQueue` contains no try/catch (its comment
defers catching to the caller, and the caller in `DllMain.cpp` does not
catch around the call either).  With queue `[1, 2]` where action `1`
throws, the drain neither logs nor continues: the error propagates out
(`exn` outcome, not a completed drain), action `2` is not executed in
that call, and only a subsequent `ProcessQueue` call runs it. -/
theorem C6_drain_error_counterexample :
    processQueue envThrow1 10 [1, 2] = DrainResult.exn "boom" [] 1 [2] ∧
    processQueue envThrow1 10 [2] = DrainResult.ok [2] := by
  exact ⟨rfl, rfl⟩

/-- C6 as amended: an error raised by a queued action during
`ProcessQueue` propagates out of the call (nothing in `ProcessQueue`
catches or logs it); the throwing action has already been popped, and the
remaining actions — including anything the failing action enqueued — do
not execute in that call but stay queued for the next one. -/
theorem C6_drain_error_propagates (env : ActEnv) (fuel : Nat) (a : Nat)
    (rest : List Nat) (msg : String) (hthrow : (env a).throws = some msg) :
    processQueue env (fuel + 1) (a :: rest)
      = DrainResult.exn msg [] a (rest ++ (env a).enqueues) := by
  simp [processQueue, hthrow]

/-- Witness for C6 (amended) at the concrete throwing queue. -/
theorem C6_drain_error_propagates_witness :
    processQueue envThrow1 10 [1, 2] = DrainResult.exn "boom" [] 1 [2] := by
  have h := C6_drain_error_propagates envThrow1 9 1 [2] "boom" rfl
  simpa [envThrow1] using h

end GameThreadExecutor

namespace ModLoader

theorem close_fresh (l : List Nat) (n : Nat) (hl : ∀ h ∈ l, h < n) :
    (l ++ [n]).filter (fun h => h != n) = l := by
  rw [List.filter_append]
  have h1 : l.filter (fun h => h != n) = l :=
    List.filter_eq_self.mpr (fun a ha => by
      simpa using Nat.ne_of_lt (hl a ha))
  simp [h1]

/-- C7. Load atomicity and rollback: `LoadMod` fails exactly when the
library cannot be opened, one of the two required exports is missing, or
the factory returns null; and on every failure the just-opened library is
closed again (the open-handle ledger is unchanged) and the loaded-mod
list — hence `GetLoadedMods` — is unchanged. -/
theorem C7_load_failure_rollback (env : LoadEnv) (st : State) (dllPath : Path)
    (hfresh : ∀ h ∈ st.openLibraries, h < st.nextHandle) :
    ((LoadMod env st dllPath).1 = false ↔
      env dllPath = none ∨
        ∃ lib, env dllPath = some lib ∧
          (lib.hasCreateMod = false ∨ lib.hasDestroyMod = false ∨
            lib.createResult = none)) ∧
    ((LoadMod env st dllPath).1 = false →
      (LoadMod env st dllPath).2.loadedMods = st.loadedMods ∧
      (LoadMod env st dllPath).2.openLibraries = st.openLibraries ∧
      GetLoadedMods (LoadMod env st dllPath).2 = GetLoadedMods st) := by
  have hclose : (st.openLibraries ++ [st.nextHandle]).filter
      (fun h => h != st.nextHandle) = st.openLibraries :=
    close_fresh st.openLibraries st.nextHandle hfresh
  cases henv : env dllPath with
  | none =>
      refine ⟨?_, ?_⟩
      · constructor
        · intro _
          exact Or.inl rfl
        · intro _
          simp [LoadMod, henv]
      · intro _
        refine ⟨?_, ?_, ?_⟩ <;> simp [LoadMod, henv]
  | some lib =>
      cases hc : lib.hasCreateMod with
      | false =>
          refine ⟨?_, ?_⟩
          · constructor
            · intro _
              exact Or.inr ⟨lib, rfl, Or.inl hc⟩
            · intro _
              simp [LoadMod, henv, hc]
          · intro _
            refine ⟨?_, ?_, ?_⟩ <;>
              simp [LoadMod, henv, hc, FreeLibrary, GetLoadedMods, hclose]
      | true =>
          cases hd : lib.hasDestroyMod with
          | false =>
              refine ⟨?_, ?_⟩
              · constructor
                · intro _
                  exact Or.inr ⟨lib, rfl, Or.inr (Or.inl hd)⟩
                · intro _
                  simp [LoadMod, henv, hc, hd]
              · intro _
                refine ⟨?_, ?_, ?_⟩ <;>
                  simp [LoadMod, henv, hc, hd, FreeLibrary, GetLoadedMods, hclose]
          | true =>
              cases hcr : lib.createResult with
              | none =>
                  refine ⟨?_, ?_⟩
                  · constructor
                    · intro _
                      exact Or.inr ⟨lib, rfl, Or.inr (Or.inr hcr)⟩
                    · intro _
                      simp [LoadMod, henv, hc, hd, hcr]
                  · intro _
                    refine ⟨?_, ?_, ?_⟩ <;>
                      simp [LoadMod, henv, hc, hd, hcr, FreeLibrary,
                        GetLoadedMods, hclose]
              | some inst =>
                  have htrue : (LoadMod env st dllPath).1 = true := by
                    simp [LoadMod, henv, hc, hd, hcr]
                  refine ⟨?_, ?_⟩
                  · rw [htrue]
                    constructor
                    · intro hfalse
                      cases hfalse
                    · rintro (hnone | ⟨lib2, heq, hbad⟩)
                      · cases hnone
                      · cases Option.some.inj heq
                        rcases hbad with hb | hb | hb
                        · rw [hc] at hb
                          cases hb
                        · rw [hd] at hb
                          cases hb
                        · rw [hcr] at hb
                          cases hb
                  · intro hfalse
                    rw [htrue] at hfalse
                    cases hfalse

/-- Witness for C7: loading `"bad.dll"`, whose `DestroyMod` export is
missing, fails and leaves `GetLoadedMods` (and the open-handle ledger)
unchanged. -/
theorem C7_load_failure_rollback_witness :
    (LoadMod envOneBad initialState "bad.dll").1 = false ∧
    (LoadMod envOneBad initialState "bad.dll").2.openLibraries = [] ∧
    GetLoadedMods (LoadMod envOneBad initialState "bad.dll").2
      = GetLoadedMods initialState := by
  have h := C7_load_failure_rollback envOneBad initialState "bad.dll"
    (by intro x hx; simp [initialState] at hx)
  have hf : (LoadMod envOneBad initialState "bad.dll").1 = false :=
    h.1.mpr (Or.inr ⟨libMissingDestroy, rfl, Or.inr (Or.inl rfl)⟩)
  obtain ⟨h1, h2, h3⟩ := h.2 hf
  exact ⟨hf, h2, h3⟩

theorem registerLoop_spec (reg : RegisterEnv) (l : List LoadedMod) :
    registerLoop reg l
      = (l.filterMap (fun m => m.modInstance.map (fun i => (i, regOk (reg i)))),
         l.filterMap (fun m => m.modInstance.bind (fun i =>
            match reg i with
            | Except.error e => some e
            | Except.ok _ => none))) := by
  induction l with
  | nil => rfl
  | cons m rest ih =>
      cases hm : m.modInstance with
      | none => simp [registerLoop, hm, ih]
      | some inst =>
          cases hr : reg inst with
          | ok u => simp [registerLoop, hm, hr, ih, regOk]
          | error e => simp [registerLoop, hm, hr, ih, regOk]

/-- C8. `RegisterAllMods` fault isolation: every loaded mod with a live
instance has its registration entry point invoked, in load order, and
each entry's success is exactly its own registration outcome — one mod's
error is caught (and logged) without stopping the others.  In particular,
with three loaded mods whose middle registration throws, mods `1` and `3`
still register and the middle error is the one message logged. -/
theorem C8_register_fault_isolation (reg : RegisterEnv) (st : State) :
    ((RegisterAllMods reg st).1
      = st.loadedMods.filterMap
          (fun m => m.modInstance.map (fun i => (i, regOk (reg i))))) ∧
    ((RegisterAllMods reg st).2
      = st.loadedMods.filterMap (fun m => m.modInstance.bind (fun i =>
          match reg i with
          | Except.error e => some e
          | Except.ok _ => none))) ∧
    RegisterAllMods regMiddleThrows stThreeMods
      = ([(1, true), (2, false), (3, true)], ["register blew up"]) := by
  refine ⟨?_, ?_, rfl⟩
  · simp [RegisterAllMods, registerLoop_spec]
  · simp [RegisterAllMods, registerLoop_spec]

end ModLoader

end Broadsword
